import Mathlib

/-!
Verification of the libp2p transport-upgrade pipeline and of the Kademlia
behaviour contract of `rust-libp2p`.

The development shallowly embeds the Rust sources:

* `libp2p/src/builder/select_muxer.rs` — `SelectMuxerUpgrade`, the two-way
  multiplexer upgrade selector.
* `core/src/transport/upgrade.rs` — the `Upgrade`d transport and its
  `DialUpgradeFuture` / `ListenerUpgradeFuture` / `Multiplex` futures.
* The Kademlia behaviour (routing table, query engine, stores, jobs).  The
  behaviour implementation itself is not among the sources (only its test
  module is), so those parts are modelled from the specification; each such
  definition carries a doc comment beginning with `Modelled from the spec:`.

Machine integers are embedded as `Nat` with explicit wrap-around where the
source relies on it; fallible operations return `Option` / `Except`.
-/

/-! ## Keyspace

Peer identifiers are opaque blobs hashed to 256-bit keys; distances are XOR,
ordered as big-endian unsigned integers.  `Nat.xor` together with the `Nat`
order is exactly that ordering, so keys are embedded as natural numbers. -/

/-- Modelled from the spec: the XOR distance between two 256-bit keyspace
values, compared as big-endian unsigned integers (the kad `kbucket::Distance`,
absent from the sources here). -/
def distance (a b : Nat) : Nat := Nat.xor a b

/-- Modelled from the spec: the peers of `ps` ordered by ascending XOR distance
to the target key `k` (the ordering used by `kbucket` closest-peer lookups,
absent from the sources here).  Distinct peers have distinct XOR distances, so
the order is total on duplicate-free candidate lists. -/
def sortByDistance (k : Nat) (ps : List Nat) : List Nat :=
  ps.insertionSort (fun a b => distance a k ≤ distance b k)

/-! ## C6 — exponential expiration decrease -/

/-- Modelled from the spec: the exponential record-expiration decrease used by
the put-record replication job (`exp_decrease` in the kad jobs module, absent
from the sources here).  A `Duration` is embedded by its whole seconds, a
`u64` value; `u64::checked_shr` yields `None` whenever the shift amount is at
least 64 and the job substitutes zero in that case, so the result is clamped
to zero instead of invoking the panicking plain right shift. -/
def exp_decrease (ttl : Nat) (factor : Nat) : Nat :=
  if factor < 64 then ttl >>> factor else 0

/-- C6: `exp_decrease` is total on all `(ttl, factor)` pairs: for `factor ≥ 64`
the result is clamped to zero (where a naive `u64` right shift would panic),
and the result never exceeds `ttl`, so no overflow is possible. -/
theorem exp_decrease_total (ttl factor : Nat) :
    (64 ≤ factor → exp_decrease ttl factor = 0) ∧ exp_decrease ttl factor ≤ ttl := by
  constructor
  · intro h
    simp [exp_decrease, Nat.not_lt.mpr h]
  · unfold exp_decrease
    split
    · rw [Nat.shiftRight_eq_div_pow]
      exact Nat.div_le_self ttl (2 ^ factor)
    · exact Nat.zero_le ttl

/-- Evaluation of C6 at the test's own input: the default record TTL shifted by
factor 64 is clamped to zero. -/
theorem exp_decrease_total_witness :
    exp_decrease 129600 64 = 0 ∧ exp_decrease 129600 2 ≤ 129600 :=
  ⟨(exp_decrease_total 129600 64).1 (by decide), (exp_decrease_total 129600 2).2⟩

/-! ## C10 — `SelectMuxerUpgrade` (from `libp2p/src/builder/select_muxer.rs`) -/

/-- A connection upgrade, as seen through the `UpgradeInfo` +
`InboundConnectionUpgrade` + `OutboundConnectionUpgrade` traits: a list of
protocol infos and the two upgrade applications from a socket and a chosen
info to a future. -/
structure ConnectionUpgrade (Info C Fut : Type) where
  protocol_info : List Info
  upgrade_inbound : C → Info → Fut
  upgrade_outbound : C → Info → Fut

/-- `EitherFuture` of `libp2p_core::either`: a future that is either the first
or the second of two alternatives. -/
inductive EitherFuture (FA FB : Type) where
  | first (f : FA)
  | second (f : FB)
deriving DecidableEq

/-- `SelectMuxerUpgrade(A, B)`: an upgrade combining the two upgrades `a`
and `b`. -/
structure SelectMuxerUpgrade (IA IB C FA FB : Type) where
  a : ConnectionUpgrade IA C FA
  b : ConnectionUpgrade IB C FB

/-- `SelectMuxerUpgrade::protocol_info`: `a`'s infos wrapped `Left` chained
with `b`'s wrapped `Right`. -/
def SelectMuxerUpgrade.protocol_info (s : SelectMuxerUpgrade IA IB C FA FB) :
    List (Sum IA IB) :=
  s.a.protocol_info.map Sum.inl ++ s.b.protocol_info.map Sum.inr

/-- `SelectMuxerUpgrade::upgrade_inbound`: dispatch on the side of the info. -/
def SelectMuxerUpgrade.upgrade_inbound (s : SelectMuxerUpgrade IA IB C FA FB)
    (sock : C) (info : Sum IA IB) : EitherFuture FA FB :=
  match info with
  | Sum.inl info => EitherFuture.first (s.a.upgrade_inbound sock info)
  | Sum.inr info => EitherFuture.second (s.b.upgrade_inbound sock info)

/-- `SelectMuxerUpgrade::upgrade_outbound`: dispatch on the side of the info. -/
def SelectMuxerUpgrade.upgrade_outbound (s : SelectMuxerUpgrade IA IB C FA FB)
    (sock : C) (info : Sum IA IB) : EitherFuture FA FB :=
  match info with
  | Sum.inl info => EitherFuture.first (s.a.upgrade_outbound sock info)
  | Sum.inr info => EitherFuture.second (s.b.upgrade_outbound sock info)

/-- C10: `SelectMuxerUpgrade(a, b)` dispatches homomorphically: its protocol
info is exactly `a`'s infos wrapped `Left` followed by `b`'s wrapped `Right`
in order; `upgrade_inbound` on `Left info` is `a`'s upgrade wrapped `First`
and on `Right info` is `b`'s wrapped `Second`, likewise for
`upgrade_outbound`; and an info of `a` is never handed to `b` (the resulting
future is never a `Second`) nor vice versa. -/
theorem selectMuxerUpgrade_dispatch {IA IB C FA FB : Type}
    (a : ConnectionUpgrade IA C FA) (b : ConnectionUpgrade IB C FB)
    (sock : C) (ia : IA) (ib : IB) :
    (SelectMuxerUpgrade.mk a b).protocol_info
        = a.protocol_info.map Sum.inl ++ b.protocol_info.map Sum.inr
    ∧ (SelectMuxerUpgrade.mk a b).upgrade_inbound sock (Sum.inl ia)
        = EitherFuture.first (a.upgrade_inbound sock ia)
    ∧ (SelectMuxerUpgrade.mk a b).upgrade_inbound sock (Sum.inr ib)
        = EitherFuture.second (b.upgrade_inbound sock ib)
    ∧ (SelectMuxerUpgrade.mk a b).upgrade_outbound sock (Sum.inl ia)
        = EitherFuture.first (a.upgrade_outbound sock ia)
    ∧ (SelectMuxerUpgrade.mk a b).upgrade_outbound sock (Sum.inr ib)
        = EitherFuture.second (b.upgrade_outbound sock ib)
    ∧ (∀ fb : FB, (SelectMuxerUpgrade.mk a b).upgrade_inbound sock (Sum.inl ia)
        ≠ EitherFuture.second fb)
    ∧ (∀ fa : FA, (SelectMuxerUpgrade.mk a b).upgrade_inbound sock (Sum.inr ib)
        ≠ EitherFuture.first fa)
    ∧ (∀ fb : FB, (SelectMuxerUpgrade.mk a b).upgrade_outbound sock (Sum.inl ia)
        ≠ EitherFuture.second fb)
    ∧ (∀ fa : FA, (SelectMuxerUpgrade.mk a b).upgrade_outbound sock (Sum.inr ib)
        ≠ EitherFuture.first fa) := by
  refine ⟨rfl, rfl, rfl, rfl, rfl, ?_, ?_, ?_, ?_⟩ <;>
    · intro f h
      simp [SelectMuxerUpgrade.upgrade_inbound, SelectMuxerUpgrade.upgrade_outbound] at h

/-! ## Records and the record store -/

/-- `Record` of the kad record store: key, value, optional publisher and
optional expiry.  Keys and peer ids are embedded as naturals, values as byte
lists, timestamps as naturals. -/
structure Record where
  key : Nat
  value : List Nat
  publisher : Option Nat
  expires : Option Nat
deriving DecidableEq

/-- Modelled from the spec: `put` of the in-memory record store (the kad
`MemoryStore`, absent from the sources here) — the record replaces an existing
record under the same key, otherwise it is appended. -/
def storePut (store : List Record) (r : Record) : List Record :=
  if store.any (fun s => s.key == r.key) then
    store.map (fun s => if s.key == r.key then r else s)
  else
    store ++ [r]

/-- Modelled from the spec: `get` of the in-memory record store — the current
record under the key, if any. -/
def storeGet (store : List Record) (k : Nat) : Option Record :=
  store.find? (fun s => s.key == k)

/-- Unfolding of `storePut` on a head whose key differs from the new record's. -/
theorem storePut_cons_ne (s : Record) (t : List Record) (r : Record)
    (h : (s.key == r.key) = false) : storePut (s :: t) r = s :: storePut t r := by
  unfold storePut
  have h' : ¬s.key = r.key := by simpa using h
  by_cases ht : t.any (fun x => x.key == r.key) = true <;>
    simp [List.any_cons, h, h', ht]

/-- Reading back a key just written yields the record written. -/
theorem storeGet_storePut (store : List Record) (r : Record) :
    storeGet (storePut store r) r.key = some r := by
  induction store with
  | nil => simp [storePut, storeGet]
  | cons s t ih =>
    by_cases h : (s.key == r.key) = true
    · unfold storePut
      simp only [List.any_cons, h, Bool.true_or, if_true, List.map_cons, if_pos h]
      simp [storeGet]
    · rw [storePut_cons_ne s t r (by simp_all)]
      unfold storeGet
      rw [List.find?_cons_of_neg _ (by simp_all)]
      exact ih

/-- `StoreInserts` — the `record_filtering` configuration: `Unfiltered` or
`FilterBoth`. -/
inductive StoreInserts where
  | unfiltered
  | filterBoth
deriving DecidableEq

/-- Modelled from the spec: the behaviour's handling of an inbound `PutValue`
request (`record_received` of the kad behaviour, absent from the sources
here).  Under `Unfiltered` the store is updated automatically and the surfaced
`InboundRequest::PutRecord` carries no record; under `FilterBoth` the store is
left untouched and the surfaced event carries `Some(record)` so that the user
decides whether to call `store.put`. -/
def handle_put_record (filtering : StoreInserts) (store : List Record) (r : Record) :
    List Record × Option Record :=
  match filtering with
  | StoreInserts.unfiltered => (storePut store r, none)
  | StoreInserts.filterBoth => (store, some r)

/-- C7: with `record_filtering = FilterBoth`, an inbound `PutValue` leaves the
record store unchanged and surfaces `InboundRequest::PutRecord` with
`record = Some(..)`; the record appears in the store only after the user
explicitly calls `store.put`.  Under `Unfiltered` the surfaced event carries
`record = None` and the store is updated automatically. -/
theorem record_filtering_frame (store : List Record) (r : Record) :
    (handle_put_record StoreInserts.filterBoth store r).1 = store
    ∧ (handle_put_record StoreInserts.filterBoth store r).2 = some r
    ∧ (storeGet store r.key = none →
        storeGet (handle_put_record StoreInserts.filterBoth store r).1 r.key = none)
    ∧ storeGet (storePut (handle_put_record StoreInserts.filterBoth store r).1 r) r.key
        = some r
    ∧ (handle_put_record StoreInserts.unfiltered store r).2 = none
    ∧ storeGet (handle_put_record StoreInserts.unfiltered store r).1 r.key = some r :=
  ⟨rfl, rfl, fun h => h, storeGet_storePut store r, rfl, storeGet_storePut store r⟩

/-! ## Progress steps of query events -/

/-- `ProgressStep { count, last }`, attached to every
`OutboundQueryProgressed` event. -/
structure ProgressStep where
  count : Nat
  last : Bool
deriving DecidableEq

/-- `ProgressStep::first()`: count 1, not terminal. -/
def ProgressStep.start : ProgressStep := ⟨1, false⟩

/-- `ProgressStep::next()`: increment the count, not terminal. -/
def ProgressStep.next (s : ProgressStep) : ProgressStep := ⟨s.count + 1, false⟩

/-- Modelled from the spec: the stream of `ProgressStep`s a single query emits
— one intermediate event per success carrying a payload (the step advancing by
`next` each time), then exactly one terminal event whose step has
`last = true`. -/
def runQueryEvents : Nat → ProgressStep → List ProgressStep
  | 0, s => [⟨s.count, true⟩]
  | n + 1, s => s :: runQueryEvents n s.next

/-- Modelled from the spec: the `ProgressStep`s emitted by a query with `n`
intermediate results, starting from `ProgressStep::first()`. -/
def queryEvents (n : Nat) : List ProgressStep := runQueryEvents n ProgressStep.start

/-- Closed form of the event stream: `n` intermediate steps with increasing
counts, then the terminal step. -/
theorem runQueryEvents_eq (n : Nat) (c : Nat) :
    runQueryEvents n ⟨c, false⟩
      = (List.range n).map (fun i => ⟨c + i, false⟩) ++ [⟨c + n, true⟩] := by
  induction n generalizing c with
  | zero => simp [runQueryEvents]
  | succ n ih =>
    have hmap : (List.range n).map (fun i => (⟨c + 1 + i, false⟩ : ProgressStep))
        = (List.range n).map ((fun i => (⟨c + i, false⟩ : ProgressStep)) ∘ Nat.succ) := by
      apply List.map_congr_left
      intro i _
      simp only [Function.comp_apply, ProgressStep.mk.injEq, and_true]
      omega
    rw [runQueryEvents, ProgressStep.next, ih, List.range_succ_eq_map, hmap]
    have h1 : c + 1 + n = c + (n + 1) := by omega
    simp [h1]

/-- C4: the event stream of a query contains exactly one step with
`last = true`; it is the final event, all earlier events have `last = false`;
and the step count increases strictly monotonically across the query's
events. -/
theorem query_events_single_terminal (n : Nat) :
    (queryEvents n).countP (fun e => e.last) = 1
    ∧ (queryEvents n).getLast? = some ⟨n + 1, true⟩
    ∧ (∀ e ∈ (queryEvents n).dropLast, e.last = false)
    ∧ (queryEvents n).Pairwise (fun a b => a.count < b.count) := by
  have h := runQueryEvents_eq n 1
  rw [queryEvents, ProgressStep.start, h]
  refine ⟨?_, ?_, ?_, ?_⟩
  · rw [List.countP_append]
    have h1 : (List.countP (fun e => e.last) ((List.range n).map
        (fun i => (⟨1 + i, false⟩ : ProgressStep)))) = 0 := by
      rw [List.countP_eq_zero]
      intro e he
      simp only [List.mem_map] at he
      obtain ⟨i, _, rfl⟩ := he
      simp
    simp [h1, List.countP_cons, Nat.add_comm]
  · rw [List.getLast?_concat]
    simp [Nat.add_comm]
  · rw [List.dropLast_concat]
    intro e he
    simp only [List.mem_map] at he
    obtain ⟨i, _, rfl⟩ := he
    rfl
  · rw [List.pairwise_append]
    refine ⟨?_, ?_, ?_⟩
    · rw [List.pairwise_map]
      exact (List.pairwise_lt_range n).imp (fun h => by simpa using h)
    · simp
    · intro a ha b hb
      simp only [List.mem_map] at ha
      obtain ⟨i, hi, rfl⟩ := ha
      simp only [List.mem_singleton] at hb
      subst hb
      simp only [List.mem_range] at hi
      simpa using hi

/-! ## C8 — the query pool and the job cap -/

/-- Modelled from the spec: `JOBS_MAX_QUERIES`, the cap on queries issued by
the background jobs (value of the constant in the kad jobs module, absent from
the sources here). -/
def JOBS_MAX_QUERIES : Nat := 100

/-- Modelled from the spec: the pool of active queries, addressed by id.  Ids
are handed out from a running counter. -/
structure QueryPool where
  nextId : Nat
  queries : List Nat

/-- The empty pool. -/
def QueryPool.empty : QueryPool := ⟨0, []⟩

/-- `QueryPool::size`. -/
def QueryPool.size (p : QueryPool) : Nat := p.queries.length

/-- Modelled from the spec: a user-API call such as `get_closest_peers`
unconditionally adds a query to the pool — the `JOBS_MAX_QUERIES` cap applies
only to the background jobs, never to the user API. -/
def QueryPool.addQuery (p : QueryPool) : QueryPool :=
  ⟨p.nextId + 1, p.queries ++ [p.nextId]⟩

/-- The pool after `n` user-API queries starting from the empty pool. -/
def userQueries : Nat → QueryPool
  | 0 => QueryPool.empty
  | n + 1 => (userQueries n).addQuery

/-- Modelled from the spec: the number of further queries the background jobs
may issue.  `Nat` subtraction truncates at zero exactly like the saturating
subtraction the fixed code uses, so a pool larger than the cap yields capacity
zero instead of an arithmetic underflow. -/
def jobs_query_capacity (p : QueryPool) : Nat := JOBS_MAX_QUERIES - p.size

/-- Modelled from the spec: polling a pool on a node that knows no other peer
finishes every query instantly; each emits its own terminal event (step count
1, `last = true`). -/
def QueryPool.drain (p : QueryPool) : List (Nat × ProgressStep) :=
  p.queries.map (fun q => (q, ⟨1, true⟩))

/-- The queries of `userQueries n` are the ids `0, …, n-1`. -/
theorem userQueries_queries (n : Nat) : (userQueries n).queries = List.range n ∧
    (userQueries n).nextId = n := by
  induction n with
  | zero => exact ⟨rfl, rfl⟩
  | succ n ih =>
    simp [userQueries, QueryPool.addQuery, ih.1, ih.2, List.range_succ]

/-- C8: the `JOBS_MAX_QUERIES` cap does not apply to the user API: after
`JOBS_MAX_QUERIES + 1` `get_closest_peers` calls the pool holds all of them,
the job capacity is clamped to zero with no arithmetic underflow, and draining
the pool yields exactly one terminal event per query, each under its own
distinct query id. -/
theorem exceed_jobs_max_queries_pool :
    (userQueries (JOBS_MAX_QUERIES + 1)).size = JOBS_MAX_QUERIES + 1
    ∧ jobs_query_capacity (userQueries (JOBS_MAX_QUERIES + 1)) = 0
    ∧ ((userQueries (JOBS_MAX_QUERIES + 1)).drain).length = JOBS_MAX_QUERIES + 1
    ∧ ((userQueries (JOBS_MAX_QUERIES + 1)).drain).map Prod.fst
        = List.range (JOBS_MAX_QUERIES + 1)
    ∧ (((userQueries (JOBS_MAX_QUERIES + 1)).drain).map Prod.fst).Nodup
    ∧ ∀ e ∈ (userQueries (JOBS_MAX_QUERIES + 1)).drain, e.2.last = true := by
  have hq := (userQueries_queries (JOBS_MAX_QUERIES + 1)).1
  refine ⟨?_, ?_, ?_, ?_, ?_, ?_⟩
  · simp [QueryPool.size, hq]
  · rw [jobs_query_capacity, QueryPool.size, hq, List.length_range]
    omega
  · simp [QueryPool.drain, hq]
  · simp only [QueryPool.drain, hq, List.map_map]
    have : (Prod.fst ∘ fun q : Nat => (q, (⟨1, true⟩ : ProgressStep))) = id := rfl
    rw [this, List.map_id]
  · simp only [QueryPool.drain, hq, List.map_map]
    have : (Prod.fst ∘ fun q : Nat => (q, (⟨1, true⟩ : ProgressStep))) = id := rfl
    rw [this, List.map_id]
    exact List.nodup_range _
  · intro e he
    simp only [QueryPool.drain, hq, List.mem_map] at he
    obtain ⟨q, _, rfl⟩ := he
    rfl

/-! ## C2 — the result of a closest-peers query -/

/-- The per-candidate state of the closest-peers iterator:
`NotContacted | Waiting(deadline) | Succeeded | Failed`. -/
inductive PeerState where
  | notContacted
  | waiting (deadline : Nat)
  | succeeded
  | failed
deriving DecidableEq

/-- Modelled from the spec: the candidate book of a closest-peers iterator —
the target key and the known candidates with their contact states. -/
structure ClosestPeersIter where
  target : Nat
  peers : List (Nat × PeerState)

/-- The candidates marked `Succeeded`: exactly the reachable peers the
iterator managed to contact. -/
def ClosestPeersIter.succeededPeers (it : ClosestPeersIter) : List Nat :=
  it.peers.filterMap (fun p => if p.2 = PeerState.succeeded then some p.1 else none)

/-- Modelled from the spec: the result on `Finished` — the up-to-k `Succeeded`
peers closest to the target in XOR order. -/
def ClosestPeersIter.intoResult (it : ClosestPeersIter) (k : Nat) : List Nat :=
  (sortByDistance it.target it.succeededPeers).take k

/-- The distance-to-`k` order is total. -/
theorem distOrder_total (k : Nat) (a b : Nat) :
    distance a k ≤ distance b k ∨ distance b k ≤ distance a k :=
  Nat.le_total _ _

/-- `sortByDistance` sorts by ascending distance and permutes its input. -/
theorem sortByDistance_sorted_perm (k : Nat) (ps : List Nat) :
    (sortByDistance k ps).Sorted (fun a b => distance a k ≤ distance b k)
    ∧ (sortByDistance k ps).Perm ps := by
  constructor
  · exact @List.sorted_insertionSort Nat (fun a b => distance a k ≤ distance b k) _
      ⟨fun a b => Nat.le_total _ _⟩ ⟨fun _ _ _ h1 h2 => Nat.le_trans h1 h2⟩ ps
  · exact List.perm_insertionSort _ ps

/-- C2: on `Finished`, the emitted peer list of a `get_closest_peers` query is
sorted by ascending XOR distance to the target, its first element is the
succeeded peer closest to the target, and when fewer than `k` peers succeeded
it contains every succeeded (reachable) peer. -/
theorem get_closest_peers_result (it : ClosestPeersIter) (k : Nat) (hk : 0 < k)
    (hne : it.succeededPeers ≠ []) :
    (it.intoResult k).Sorted (fun a b => distance a it.target ≤ distance b it.target)
    ∧ (∃ p rest, it.intoResult k = p :: rest
        ∧ ∀ q ∈ it.succeededPeers, distance p it.target ≤ distance q it.target)
    ∧ (it.succeededPeers.length ≤ k → ∀ q ∈ it.succeededPeers, q ∈ it.intoResult k) := by
  obtain ⟨hsorted, hperm⟩ := sortByDistance_sorted_perm it.target it.succeededPeers
  refine ⟨?_, ?_, ?_⟩
  · exact List.Pairwise.sublist (List.take_sublist k _) hsorted
  · obtain ⟨k', rfl⟩ : ∃ m, k = m + 1 := ⟨k - 1, by omega⟩
    cases hL : sortByDistance it.target it.succeededPeers with
    | nil =>
      rw [hL] at hperm
      exact absurd hperm.symm.eq_nil hne
    | cons p rest =>
      refine ⟨p, rest.take k', by rw [ClosestPeersIter.intoResult, hL, List.take_succ_cons], ?_⟩
      intro q hq
      rw [hL] at hperm hsorted
      rcases List.mem_cons.mp (hperm.mem_iff.mpr hq) with rfl | h
      · exact Nat.le_refl _
      · exact (List.pairwise_cons.mp hsorted).1 q h
  · intro hlen q hq
    have hLlen : (sortByDistance it.target it.succeededPeers).length ≤ k := by
      rw [hperm.length_eq]; exact hlen
    rw [ClosestPeersIter.intoResult, List.take_of_length_le hLlen]
    exact hperm.mem_iff.mpr hq

/-- A sample iterator used to evaluate C2 on concrete data. -/
def sampleIter : ClosestPeersIter :=
  ⟨6, [(1, PeerState.succeeded), (2, PeerState.failed), (9, PeerState.succeeded),
       (4, PeerState.waiting 3)]⟩

/-- Evaluation of C2 on a concrete iterator. -/
theorem get_closest_peers_result_witness :
    (sampleIter.intoResult 20).Sorted
        (fun a b => distance a sampleIter.target ≤ distance b sampleIter.target)
    ∧ (∃ p rest, sampleIter.intoResult 20 = p :: rest
        ∧ ∀ q ∈ sampleIter.succeededPeers, distance p sampleIter.target ≤ distance q sampleIter.target)
    ∧ (sampleIter.succeededPeers.length ≤ 20 →
        ∀ q ∈ sampleIter.succeededPeers, q ∈ sampleIter.intoResult 20) :=
  get_closest_peers_result sampleIter 20 (by decide) (by decide)

/-! ## C1 — `put_record` replication -/

/-- Modelled from the spec: the peers that hold the record after phase 2 of
`put_record` — the `replication_factor` peers closest to the record key among
the other peers of the network (phase 1 finds the closest peers, phase 2 sends
each of them a `PutValue`). -/
def putRecordHolders (key : Nat) (others : List Nat) (rf : Nat) : List Nat :=
  (sortByDistance key others).take rf

/-- Modelled from the spec: the copies stored in phase 2 of `put_record`: each
holder stores the record stamped with the publishing node as its publisher,
preserving key, value and expiry. -/
def putRecordStores (publisher : Nat) (others : List Nat) (rf : Nat) (r : Record) :
    List (Nat × Record) :=
  (putRecordHolders r.key others rf).map
    (fun p => (p, { r with publisher := some publisher }))

/-- C1: after a `put_record` that completes with `Ok`, the record is held by
exactly `replication_factor` distinct peers, none of which is the publisher;
those holders are exactly a prefix of the other peers ordered by ascending XOR
distance from the record key; and every stored copy preserves the record's
key, value and expiry and carries the publisher's peer id. -/
theorem put_record_replication (publisher : Nat) (others : List Nat) (rf : Nat)
    (r : Record) (hnd : others.Nodup) (hrf : rf ≤ others.length)
    (hp : publisher ∉ others) :
    (putRecordHolders r.key others rf).length = rf
    ∧ (putRecordHolders r.key others rf).Nodup
    ∧ publisher ∉ putRecordHolders r.key others rf
    ∧ (∃ bydist : List Nat, bydist.Perm others
        ∧ bydist.Sorted (fun a b => distance a r.key ≤ distance b r.key)
        ∧ putRecordHolders r.key others rf = bydist.take rf)
    ∧ (∀ ps ∈ putRecordStores publisher others rf r,
        ps.2.key = r.key ∧ ps.2.value = r.value ∧ ps.2.expires = r.expires
          ∧ ps.2.publisher = some publisher) := by
  obtain ⟨hsorted, hperm⟩ := sortByDistance_sorted_perm r.key others
  refine ⟨?_, ?_, ?_, ⟨sortByDistance r.key others, hperm, hsorted, rfl⟩, ?_⟩
  · rw [putRecordHolders, List.length_take, hperm.length_eq]
    omega
  · exact List.Nodup.sublist (List.take_sublist rf _) (hperm.nodup_iff.mpr hnd)
  · intro hmem
    exact hp (hperm.mem_iff.mp (List.take_subset rf _ hmem))
  · intro ps hps
    simp only [putRecordStores, List.mem_map] at hps
    obtain ⟨p, _, rfl⟩ := hps
    exact ⟨rfl, rfl, rfl, rfl⟩

/-- A sample record used to evaluate C1 on concrete data. -/
def sampleRecord : Record := ⟨5, [7, 7], none, some 90⟩

/-- Evaluation of C1 on a concrete network of three other peers with
replication factor two. -/
theorem put_record_replication_witness :
    (putRecordHolders sampleRecord.key [1, 2, 3] 2).length = 2
    ∧ (putRecordHolders sampleRecord.key [1, 2, 3] 2).Nodup
    ∧ 10 ∉ putRecordHolders sampleRecord.key [1, 2, 3] 2
    ∧ (∃ bydist : List Nat, bydist.Perm [1, 2, 3]
        ∧ bydist.Sorted (fun a b => distance a sampleRecord.key ≤ distance b sampleRecord.key)
        ∧ putRecordHolders sampleRecord.key [1, 2, 3] 2 = bydist.take 2)
    ∧ (∀ ps ∈ putRecordStores 10 [1, 2, 3] 2 sampleRecord,
        ps.2.key = sampleRecord.key ∧ ps.2.value = sampleRecord.value
          ∧ ps.2.expires = sampleRecord.expires ∧ ps.2.publisher = some 10) :=
  put_record_replication 10 [1, 2, 3] 2 sampleRecord (by decide) (by decide) (by decide)

/-! ## C3 — bootstrap from a chain of nodes -/

/-- Modelled from the spec: the initial knowledge in the bootstrap scenario —
node `i` of `N` nodes knows exactly node `i + 1` (the last node knows
nobody). -/
def knowsNext (N i : Nat) : List Nat := if i + 1 < N then [i + 1] else []

/-- Modelled from the spec: one round of the iterative lookup driven by
bootstrap — every peer currently known to the querying node is contacted and
returns every peer it knows (the scenario has fewer than k = 20 nodes, so
closer-peer responses are never truncated). -/
def lookupRound (N : Nat) (known : List Nat) : List Nat :=
  (known ++ known.flatMap (knowsNext N)).dedup

/-- The peers known to node 0 after `fuel` lookup rounds, starting from its
initial routing table. -/
def lookupRounds (N : Nat) : Nat → List Nat
  | 0 => knowsNext N 0
  | n + 1 => lookupRound N (lookupRounds N n)

/-- The payload of a successful bootstrap progress event:
`BootstrapOk { peer, num_remaining }`. -/
structure BootstrapOk where
  peer : Nat
  num_remaining : Nat
deriving DecidableEq

/-- Modelled from the spec: the per-bucket refresh lookups that follow the
self-lookup; each reports the looked-up target and the number of refreshes
still pending. -/
def bootstrapLookupEvents : List Nat → List BootstrapOk
  | [] => []
  | t :: ts => ⟨t, ts.length⟩ :: bootstrapLookupEvents ts

/-- Modelled from the spec: the stream of successful bootstrap progress
events — the self-lookup completes first and reports the node's own id, then
one random lookup per remaining non-empty bucket, `num_remaining` counting
down to zero at the terminal event. -/
def bootstrapEvents (selfId : Nat) (targets : List Nat) : List BootstrapOk :=
  ⟨selfId, targets.length⟩ :: bootstrapLookupEvents targets

/-- The final per-bucket refresh event reports zero remaining lookups. -/
theorem bootstrapLookupEvents_getLast (t : Nat) (ts : List Nat) :
    ∃ e : BootstrapOk, (bootstrapLookupEvents (t :: ts)).getLast? = some e
      ∧ e.num_remaining = 0 := by
  induction ts generalizing t with
  | nil => exact ⟨⟨t, 0⟩, rfl, rfl⟩
  | cons t2 ts ih =>
    obtain ⟨e, he, h0⟩ := ih t2
    refine ⟨e, ?_, h0⟩
    show (⟨t, (t2 :: ts).length⟩ :: ⟨t2, ts.length⟩ :: bootstrapLookupEvents ts).getLast?
      = some e
    rw [List.getLast?_cons_cons]
    exact he

/-- C3: bootstrapping node 0 of a chain of `N ∈ [2, 20)` nodes in which node
`i` initially knows only node `i + 1`: the iterative lookups make node 0's
buckets contain exactly the ids of every other node; the first progress event
reports the self-lookup (its peer is node 0's own id); and the terminal event
carries `num_remaining = 0`. -/
theorem bootstrap_chain_contract (N selfId : Nat) (targets : List Nat)
    (h2 : 2 ≤ N) (h20 : N < 20) :
    lookupRounds N N = List.range' 1 (N - 1)
    ∧ (bootstrapEvents selfId targets).head? = some ⟨selfId, targets.length⟩
    ∧ (∃ e : BootstrapOk, (bootstrapEvents selfId targets).getLast? = some e
        ∧ e.num_remaining = 0) := by
  refine ⟨?_, rfl, ?_⟩
  · revert h2
    revert N
    have : ∀ N, N < 20 → 2 ≤ N → lookupRounds N N = List.range' 1 (N - 1) := by decide
    intro N h20 h2
    exact this N h20 h2
  · cases targets with
    | nil => exact ⟨⟨selfId, 0⟩, rfl, rfl⟩
    | cons t ts =>
      obtain ⟨e, he, h0⟩ := bootstrapLookupEvents_getLast t ts
      refine ⟨e, ?_, h0⟩
      show (⟨selfId, (t :: ts).length⟩ :: ⟨t, ts.length⟩ :: bootstrapLookupEvents ts).getLast?
        = some e
      rw [List.getLast?_cons_cons]
      exact he

/-- Evaluation of C3 for a five-node chain with two refresh targets. -/
theorem bootstrap_chain_contract_witness :
    lookupRounds 5 5 = List.range' 1 (5 - 1)
    ∧ (bootstrapEvents 0 [4, 11]).head? = some ⟨0, ([4, 11] : List Nat).length⟩
    ∧ (∃ e : BootstrapOk, (bootstrapEvents 0 [4, 11]).getLast? = some e
        ∧ e.num_remaining = 0) :=
  bootstrap_chain_contract 5 0 [4, 11] (by decide) (by decide)

/-! ## C5 — disjoint query paths -/

/-- `PeerRecord`: a found record together with the peer it came from. -/
structure PeerRecord where
  peer : Option Nat
  record : Record
deriving DecidableEq

/-- Modelled from the spec: the state of a `get_record` query running over
disjoint paths — per-path termination flags and the records found so far. -/
structure DisjointGetRecord where
  pathFinished : List Bool
  records : List PeerRecord
deriving DecidableEq

/-- A `GetRecord` progress event: the optionally found record and the
accompanying step. -/
structure GetRecordEvent where
  found : Option PeerRecord
  step : ProgressStep
deriving DecidableEq

/-- Modelled from the spec: resolving disjoint path `i`, optionally with a
found record — the path is marked terminated, the record accumulated, and the
emitted event's step is terminal exactly when every path has terminated (the
composite iterator terminates only when all `d` sub-iterators terminate). -/
def resolvePath (st : DisjointGetRecord) (i : Nat) (r : Option PeerRecord)
    (count : Nat) : DisjointGetRecord × GetRecordEvent :=
  let paths := st.pathFinished.set i true
  let recs := match r with
    | some pr => st.records ++ [pr]
    | none => st.records
  (⟨paths, recs⟩, ⟨r, ⟨count, paths.all id⟩⟩)

/-- The initial disjoint-path state of Alice's `get_record` query: two paths
(parallelism 2), none finished, no record found. -/
def aliceStart : DisjointGetRecord := ⟨[false, false], []⟩

/-- Bob's record for the searched key (value spells `bob`). -/
def bobPeerRecord : PeerRecord := ⟨some 2, ⟨77, [98, 111, 98], none, none⟩⟩

/-- Trudy's record for the same key (value spells `trudy`). -/
def trudyPeerRecord : PeerRecord := ⟨some 3, ⟨77, [116, 114, 117, 100, 121], none, none⟩⟩

/-- C5: a disjoint-paths query never emits its terminal event before all paths
have terminated: whenever a resolution produces a step with `last = true`,
every path is terminated afterwards.  In the Alice/Bob/Trudy scenario with
parallelism 2, resolving the path through Trudy first emits `last = false`
while the path through Bob is unresolved, and only resolving Bob's path emits
the terminal event, whose accumulated result contains Bob's record. -/
theorem disjoint_paths_terminal (st : DisjointGetRecord) (i : Nat)
    (r : Option PeerRecord) (c : Nat)
    (hlast : ((resolvePath st i r c).2).step.last = true) :
    (∀ b ∈ (resolvePath st i r c).1.pathFinished, b = true)
    ∧ (resolvePath aliceStart 1 (some trudyPeerRecord) 1).2.step.last = false
    ∧ (resolvePath ((resolvePath aliceStart 1 (some trudyPeerRecord) 1).1) 0
        (some bobPeerRecord) 2).2.step.last = true
    ∧ bobPeerRecord ∈ (resolvePath ((resolvePath aliceStart 1 (some trudyPeerRecord) 1).1) 0
        (some bobPeerRecord) 2).1.records := by
  refine ⟨?_, by decide, by decide, by decide⟩
  intro b hb
  have hall : ((st.pathFinished.set i true).all id) = true := hlast
  exact List.all_eq_true.mp hall b hb

/-- Evaluation of C5 at the scenario's second resolution, which is terminal. -/
theorem disjoint_paths_terminal_witness :
    (∀ b ∈ (resolvePath ((resolvePath aliceStart 1 (some trudyPeerRecord) 1).1) 0
        (some bobPeerRecord) 2).1.pathFinished, b = true)
    ∧ (resolvePath aliceStart 1 (some trudyPeerRecord) 1).2.step.last = false
    ∧ (resolvePath ((resolvePath aliceStart 1 (some trudyPeerRecord) 1).1) 0
        (some bobPeerRecord) 2).2.step.last = true
    ∧ bobPeerRecord ∈ (resolvePath ((resolvePath aliceStart 1 (some trudyPeerRecord) 1).1) 0
        (some bobPeerRecord) 2).1.records :=
  disjoint_paths_terminal ((resolvePath aliceStart 1 (some trudyPeerRecord) 1).1) 0
    (some bobPeerRecord) 2 (by decide)

/-! ## C9 — the `Upgrade`d transport futures
(from `core/src/transport/upgrade.rs`)

Asynchronous futures are embedded as deterministic mock futures: a countdown
of pending polls followed by a ready result.  This captures exactly what the
`poll` loops of `DialUpgradeFuture`, `ListenerUpgradeFuture` and `Multiplex`
observe of their inner futures. -/

/-- `Poll` of a future: pending or ready with a value. -/
inductive PollRes (α : Type) where
  | pending
  | ready (a : α)
deriving DecidableEq

/-- A deterministic future: `delay` pending polls, then `result`. -/
structure MockFuture (α : Type) where
  delay : Nat
  result : α
deriving DecidableEq

/-- Polling a mock future: one pending poll is consumed, or the result is
ready. -/
def MockFuture.poll (f : MockFuture α) : MockFuture α × PollRes α :=
  match f.delay with
  | 0 => (f, PollRes.ready f.result)
  | Nat.succ d => (⟨d, f.result⟩, PollRes.pending)

/-- `TransportUpgradeError`: an error of the inner transport or an error while
upgrading.  The `UpgradeError<U>` payload of the `Upgrade` variant is kept
opaque as `U`. -/
inductive TransportUpgradeError (T U : Type) where
  | transport (e : T)
  | upgrade (e : U)
deriving DecidableEq

/-- `DialUpgradeFuture`: the boxed inner dial future (producing a peer id and
an I/O resource) and either the not-yet-applied upgrade (`Sum.inl`, the
upgrade value itself living in the `applyOutbound` parameter of `poll`) or the
peer id with the in-progress applied upgrade (`Sum.inr`). -/
structure DialUpgradeFuture (C D TE UE : Type) where
  future : MockFuture (Except TE (Nat × C))
  upgrade : Sum Unit (Nat × MockFuture (Except UE D))

/-- `DialUpgradeFuture::poll`: while the upgrade is un-applied, poll the inner
future; a transport error maps to `TransportUpgradeError::Transport`; on inner
success the upgrade is applied to the obtained I/O resource via
`apply_outbound` and the loop continues by polling it within the same call;
once applied, its error maps to `TransportUpgradeError::Upgrade` and its
output is paired with the peer id taken from the inner future. -/
def DialUpgradeFuture.poll (applyOutbound : C → MockFuture (Except UE D))
    (f : DialUpgradeFuture C D TE UE) :
    DialUpgradeFuture C D TE UE
      × PollRes (Except (TransportUpgradeError TE UE) (Nat × D)) :=
  match f.upgrade with
  | Sum.inl _ =>
    match f.future.poll with
    | (fut, PollRes.pending) => ({ f with future := fut }, PollRes.pending)
    | (fut, PollRes.ready (Except.error e)) =>
        ({ f with future := fut },
          PollRes.ready (Except.error (TransportUpgradeError.transport e)))
    | (fut, PollRes.ready (Except.ok (i, c))) =>
        match (applyOutbound c).poll with
        | (up, PollRes.pending) => (⟨fut, Sum.inr (i, up)⟩, PollRes.pending)
        | (up, PollRes.ready (Except.ok d)) =>
            (⟨fut, Sum.inr (i, up)⟩, PollRes.ready (Except.ok (i, d)))
        | (up, PollRes.ready (Except.error e)) =>
            (⟨fut, Sum.inr (i, up)⟩,
              PollRes.ready (Except.error (TransportUpgradeError.upgrade e)))
  | Sum.inr (i, up) =>
    match up.poll with
    | (up2, PollRes.pending) =>
        ({ f with upgrade := Sum.inr (i, up2) }, PollRes.pending)
    | (up2, PollRes.ready (Except.ok d)) =>
        ({ f with upgrade := Sum.inr (i, up2) }, PollRes.ready (Except.ok (i, d)))
    | (up2, PollRes.ready (Except.error e)) =>
        ({ f with upgrade := Sum.inr (i, up2) },
          PollRes.ready (Except.error (TransportUpgradeError.upgrade e)))

/-- Repeatedly poll a `DialUpgradeFuture` until it is ready, within `fuel`
polls. -/
def runDial (applyOutbound : C → MockFuture (Except UE D))
    (f : DialUpgradeFuture C D TE UE) :
    Nat → Option (Except (TransportUpgradeError TE UE) (Nat × D))
  | 0 => none
  | Nat.succ fuel =>
    match DialUpgradeFuture.poll applyOutbound f with
    | (_, PollRes.ready r) => some r
    | (f2, PollRes.pending) => runDial applyOutbound f2 fuel

/-- `ListenerUpgradeFuture`: the boxed inner listener-upgrade future and
either the not-yet-applied upgrade or the peer id with the in-progress applied
upgrade.  Identical in shape to `DialUpgradeFuture`, but applying the upgrade
with `apply_inbound`. -/
structure ListenerUpgradeFuture (C D TE UE : Type) where
  future : MockFuture (Except TE (Nat × C))
  upgrade : Sum Unit (Nat × MockFuture (Except UE D))

/-- `ListenerUpgradeFuture::poll`: same loop as `DialUpgradeFuture::poll` with
the inbound upgrade application. -/
def ListenerUpgradeFuture.poll (applyInbound : C → MockFuture (Except UE D))
    (f : ListenerUpgradeFuture C D TE UE) :
    ListenerUpgradeFuture C D TE UE
      × PollRes (Except (TransportUpgradeError TE UE) (Nat × D)) :=
  match f.upgrade with
  | Sum.inl _ =>
    match f.future.poll with
    | (fut, PollRes.pending) => ({ f with future := fut }, PollRes.pending)
    | (fut, PollRes.ready (Except.error e)) =>
        ({ f with future := fut },
          PollRes.ready (Except.error (TransportUpgradeError.transport e)))
    | (fut, PollRes.ready (Except.ok (i, c))) =>
        match (applyInbound c).poll with
        | (up, PollRes.pending) => (⟨fut, Sum.inr (i, up)⟩, PollRes.pending)
        | (up, PollRes.ready (Except.ok d)) =>
            (⟨fut, Sum.inr (i, up)⟩, PollRes.ready (Except.ok (i, d)))
        | (up, PollRes.ready (Except.error e)) =>
            (⟨fut, Sum.inr (i, up)⟩,
              PollRes.ready (Except.error (TransportUpgradeError.upgrade e)))
  | Sum.inr (i, up) =>
    match up.poll with
    | (up2, PollRes.pending) =>
        ({ f with upgrade := Sum.inr (i, up2) }, PollRes.pending)
    | (up2, PollRes.ready (Except.ok d)) =>
        ({ f with upgrade := Sum.inr (i, up2) }, PollRes.ready (Except.ok (i, d)))
    | (up2, PollRes.ready (Except.error e)) =>
        ({ f with upgrade := Sum.inr (i, up2) },
          PollRes.ready (Except.error (TransportUpgradeError.upgrade e)))

/-- Repeatedly poll a `ListenerUpgradeFuture` until it is ready, within `fuel`
polls. -/
def runListener (applyInbound : C → MockFuture (Except UE D))
    (f : ListenerUpgradeFuture C D TE UE) :
    Nat → Option (Except (TransportUpgradeError TE UE) (Nat × D))
  | 0 => none
  | Nat.succ fuel =>
    match ListenerUpgradeFuture.poll applyInbound f with
    | (_, PollRes.ready r) => some r
    | (f2, PollRes.pending) => runListener applyInbound f2 fuel

/-- `Multiplex`: the peer id taken from the authenticated transport's output
and the in-progress multiplexer upgrade. -/
structure Multiplex (M UE : Type) where
  peer_id : Option Nat
  upgrade : MockFuture (Except UE M)

/-- `Multiplex::poll`: an upgrade error is returned as-is; on upgrade success
the stored peer id is taken and paired with the muxer.  The outer `Option` is
`none` exactly when the future is polled ready after completion, where the
source `expect`s (panics). -/
def Multiplex.poll (f : Multiplex M UE) :
    Multiplex M UE × Option (PollRes (Except UE (Nat × M))) :=
  match f.upgrade.poll with
  | (up2, PollRes.pending) => ({ f with upgrade := up2 }, some PollRes.pending)
  | (up2, PollRes.ready (Except.error e)) =>
      ({ f with upgrade := up2 }, some (PollRes.ready (Except.error e)))
  | (up2, PollRes.ready (Except.ok m)) =>
      match f.peer_id with
      | none => ({ f with upgrade := up2 }, none)
      | some i => (⟨none, up2⟩, some (PollRes.ready (Except.ok (i, m))))

/-- Repeatedly poll a `Multiplex` until it is ready, within `fuel` polls. -/
def runMultiplex (f : Multiplex M UE) : Nat → Option (Except UE (Nat × M))
  | 0 => none
  | Nat.succ fuel =>
    match f.poll with
    | (_, none) => none
    | (_, some (PollRes.ready r)) => some r
    | (f2, some PollRes.pending) => runMultiplex f2 fuel

/-- Running a `DialUpgradeFuture` whose upgrade is already applied resolves to
the applied upgrade's result paired with the saved peer id. -/
theorem runDial_inr (applyOutbound : C → MockFuture (Except UE D))
    (fut : MockFuture (Except TE (Nat × C))) (i : Nat)
    (up : MockFuture (Except UE D)) (fuel : Nat)
    (r : Except (TransportUpgradeError TE UE) (Nat × D))
    (h : runDial applyOutbound ⟨fut, Sum.inr (i, up)⟩ fuel = some r) :
    r = match up.result with
      | Except.ok d => Except.ok (i, d)
      | Except.error e => Except.error (TransportUpgradeError.upgrade e) := by
  induction fuel generalizing up with
  | zero => simp [runDial] at h
  | succ fuel ih =>
    obtain ⟨d, res⟩ := up
    cases d with
    | zero =>
      cases res with
      | ok v =>
        simp [runDial, DialUpgradeFuture.poll, MockFuture.poll] at h
        simp [← h]
      | error e =>
        simp [runDial, DialUpgradeFuture.poll, MockFuture.poll] at h
        simp [← h]
    | succ d =>
      simp only [runDial, DialUpgradeFuture.poll, MockFuture.poll] at h
      exact ih ⟨d, res⟩ h

/-- Running a `DialUpgradeFuture` from its initial state resolves to: the
transport error if the inner dial fails, otherwise the applied upgrade's
result paired with the peer id the inner dial produced. -/
theorem runDial_inl (applyOutbound : C → MockFuture (Except UE D))
    (fut : MockFuture (Except TE (Nat × C))) (fuel : Nat)
    (r : Except (TransportUpgradeError TE UE) (Nat × D))
    (h : runDial applyOutbound ⟨fut, Sum.inl ()⟩ fuel = some r) :
    r = match fut.result with
      | Except.error e => Except.error (TransportUpgradeError.transport e)
      | Except.ok (i, c) =>
        match (applyOutbound c).result with
        | Except.ok d => Except.ok (i, d)
        | Except.error e => Except.error (TransportUpgradeError.upgrade e) := by
  induction fuel generalizing fut with
  | zero => simp [runDial] at h
  | succ fuel ih =>
    obtain ⟨fd, fres⟩ := fut
    cases fd with
    | zero =>
      cases fres with
      | error e =>
        simp [runDial, DialUpgradeFuture.poll, MockFuture.poll] at h
        simp [← h]
      | ok v =>
        obtain ⟨i, c⟩ := v
        rcases hac : applyOutbound c with ⟨ud, ures⟩
        cases ud with
        | zero =>
          cases ures with
          | ok d =>
            simp [runDial, DialUpgradeFuture.poll, MockFuture.poll, hac] at h
            simp [hac, ← h]
          | error e =>
            simp [runDial, DialUpgradeFuture.poll, MockFuture.poll, hac] at h
            simp [hac, ← h]
        | succ ud =>
          simp only [runDial, DialUpgradeFuture.poll, MockFuture.poll, hac] at h
          have := runDial_inr applyOutbound ⟨0, Except.ok (i, c)⟩ i ⟨ud, ures⟩ fuel r h
          simp only [hac]
          exact this
    | succ fd =>
      simp only [runDial, DialUpgradeFuture.poll, MockFuture.poll] at h
      exact ih ⟨fd, fres⟩ h

/-- Running a `ListenerUpgradeFuture` whose upgrade is already applied
resolves to the applied upgrade's result paired with the saved peer id. -/
theorem runListener_inr (applyInbound : C → MockFuture (Except UE D))
    (fut : MockFuture (Except TE (Nat × C))) (i : Nat)
    (up : MockFuture (Except UE D)) (fuel : Nat)
    (r : Except (TransportUpgradeError TE UE) (Nat × D))
    (h : runListener applyInbound ⟨fut, Sum.inr (i, up)⟩ fuel = some r) :
    r = match up.result with
      | Except.ok d => Except.ok (i, d)
      | Except.error e => Except.error (TransportUpgradeError.upgrade e) := by
  induction fuel generalizing up with
  | zero => simp [runListener] at h
  | succ fuel ih =>
    obtain ⟨d, res⟩ := up
    cases d with
    | zero =>
      cases res with
      | ok v =>
        simp [runListener, ListenerUpgradeFuture.poll, MockFuture.poll] at h
        simp [← h]
      | error e =>
        simp [runListener, ListenerUpgradeFuture.poll, MockFuture.poll] at h
        simp [← h]
    | succ d =>
      simp only [runListener, ListenerUpgradeFuture.poll, MockFuture.poll] at h
      exact ih ⟨d, res⟩ h

/-- Running a `ListenerUpgradeFuture` from its initial state resolves to: the
transport error if the inner future fails, otherwise the applied upgrade's
result paired with the peer id the inner future produced. -/
theorem runListener_inl (applyInbound : C → MockFuture (Except UE D))
    (fut : MockFuture (Except TE (Nat × C))) (fuel : Nat)
    (r : Except (TransportUpgradeError TE UE) (Nat × D))
    (h : runListener applyInbound ⟨fut, Sum.inl ()⟩ fuel = some r) :
    r = match fut.result with
      | Except.error e => Except.error (TransportUpgradeError.transport e)
      | Except.ok (i, c) =>
        match (applyInbound c).result with
        | Except.ok d => Except.ok (i, d)
        | Except.error e => Except.error (TransportUpgradeError.upgrade e) := by
  induction fuel generalizing fut with
  | zero => simp [runListener] at h
  | succ fuel ih =>
    obtain ⟨fd, fres⟩ := fut
    cases fd with
    | zero =>
      cases fres with
      | error e =>
        simp [runListener, ListenerUpgradeFuture.poll, MockFuture.poll] at h
        simp [← h]
      | ok v =>
        obtain ⟨i, c⟩ := v
        rcases hac : applyInbound c with ⟨ud, ures⟩
        cases ud with
        | zero =>
          cases ures with
          | ok d =>
            simp [runListener, ListenerUpgradeFuture.poll, MockFuture.poll, hac] at h
            simp [hac, ← h]
          | error e =>
            simp [runListener, ListenerUpgradeFuture.poll, MockFuture.poll, hac] at h
            simp [hac, ← h]
        | succ ud =>
          simp only [runListener, ListenerUpgradeFuture.poll, MockFuture.poll, hac] at h
          have := runListener_inr applyInbound ⟨0, Except.ok (i, c)⟩ i ⟨ud, ures⟩ fuel r h
          simp only [hac]
          exact this
    | succ fd =>
      simp only [runListener, ListenerUpgradeFuture.poll, MockFuture.poll] at h
      exact ih ⟨fd, fres⟩ h

/-- Running a `Multiplex` with a stored peer id resolves to the upgrade's
result, pairing the stored peer id with the muxer on success. -/
theorem runMultiplex_result (pid : Nat) (mux : MockFuture (Except UE M)) (fuel : Nat)
    (rm : Except UE (Nat × M)) (h : runMultiplex ⟨some pid, mux⟩ fuel = some rm) :
    rm = match mux.result with
      | Except.ok m => Except.ok (pid, m)
      | Except.error e => Except.error e := by
  induction fuel generalizing mux with
  | zero => simp [runMultiplex] at h
  | succ fuel ih =>
    obtain ⟨d, res⟩ := mux
    cases d with
    | zero =>
      cases res with
      | ok m =>
        simp [runMultiplex, Multiplex.poll, MockFuture.poll] at h
        simp [← h]
      | error e =>
        simp [runMultiplex, Multiplex.poll, MockFuture.poll] at h
        simp [← h]
    | succ d =>
      simp only [runMultiplex, Multiplex.poll, MockFuture.poll] at h
      exact ih ⟨d, res⟩ h

/-- A single poll of a `DialUpgradeFuture` moves to the applied-upgrade state
only when the inner dial future has completed successfully, and the peer id it
records is the one the inner future produced. -/
theorem dial_poll_applies_after_success (applyOutbound : C → MockFuture (Except UE D))
    (fut : MockFuture (Except TE (Nat × C)))
    (f2 : DialUpgradeFuture C D TE UE)
    (res : PollRes (Except (TransportUpgradeError TE UE) (Nat × D)))
    (i : Nat) (up2 : MockFuture (Except UE D))
    (hpoll : DialUpgradeFuture.poll applyOutbound ⟨fut, Sum.inl ()⟩ = (f2, res))
    (hupg : f2.upgrade = Sum.inr (i, up2)) :
    fut.delay = 0 ∧ ∃ c, fut.result = Except.ok (i, c) := by
  obtain ⟨fd, fres⟩ := fut
  cases fd with
  | succ fd =>
    simp [DialUpgradeFuture.poll, MockFuture.poll] at hpoll
    rw [← hpoll.1] at hupg
    simp at hupg
  | zero =>
    cases fres with
    | error e =>
      simp [DialUpgradeFuture.poll, MockFuture.poll] at hpoll
      rw [← hpoll.1] at hupg
      simp at hupg
    | ok v =>
      obtain ⟨i2, c⟩ := v
      rcases hac : applyOutbound c with ⟨ud, ures⟩
      cases ud with
      | zero =>
        cases ures with
        | ok d =>
          simp [DialUpgradeFuture.poll, MockFuture.poll, hac] at hpoll
          rw [← hpoll.1] at hupg
          simp at hupg
          exact ⟨rfl, c, by rw [hupg.1]⟩
        | error e =>
          simp [DialUpgradeFuture.poll, MockFuture.poll, hac] at hpoll
          rw [← hpoll.1] at hupg
          simp at hupg
          exact ⟨rfl, c, by rw [hupg.1]⟩
      | succ ud =>
        simp [DialUpgradeFuture.poll, MockFuture.poll, hac] at hpoll
        rw [← hpoll.1] at hupg
        simp at hupg
        exact ⟨rfl, c, by rw [hupg.1]⟩

/-- C9: for every dial or inbound accept through an `Upgrade`d transport that
resolves, the peer id of the final output is exactly the peer id the inner
authenticated transport produced — the custom upgrade only transforms the I/O
resource; an inner transport error surfaces as
`TransportUpgradeError::Transport` and an upgrade error as
`TransportUpgradeError::Upgrade`; the upgrade is applied only once the inner
future has completed successfully; and `Multiplex` pairs its stored peer id
unchanged with the negotiated muxer. -/
theorem transport_upgrade_contract {C D TE UE M : Type}
    (applyOutbound applyInbound : C → MockFuture (Except UE D))
    (dialInner listenInner : MockFuture (Except TE (Nat × C)))
    (pid : Nat) (mux : MockFuture (Except UE M))
    (fuel1 fuel2 fuel3 : Nat)
    (rd rl : Except (TransportUpgradeError TE UE) (Nat × D))
    (rm : Except UE (Nat × M))
    (hd : runDial applyOutbound ⟨dialInner, Sum.inl ()⟩ fuel1 = some rd)
    (hl : runListener applyInbound ⟨listenInner, Sum.inl ()⟩ fuel2 = some rl)
    (hm : runMultiplex ⟨some pid, mux⟩ fuel3 = some rm) :
    (∀ e, dialInner.result = Except.error e →
        rd = Except.error (TransportUpgradeError.transport e))
    ∧ (∀ i c, dialInner.result = Except.ok (i, c) →
        (∀ d, (applyOutbound c).result = Except.ok d → rd = Except.ok (i, d))
        ∧ (∀ e, (applyOutbound c).result = Except.error e →
            rd = Except.error (TransportUpgradeError.upgrade e)))
    ∧ (∀ e, listenInner.result = Except.error e →
        rl = Except.error (TransportUpgradeError.transport e))
    ∧ (∀ i c, listenInner.result = Except.ok (i, c) →
        (∀ d, (applyInbound c).result = Except.ok d → rl = Except.ok (i, d))
        ∧ (∀ e, (applyInbound c).result = Except.error e →
            rl = Except.error (TransportUpgradeError.upgrade e)))
    ∧ (∀ m, mux.result = Except.ok m → rm = Except.ok (pid, m))
    ∧ (∀ e, mux.result = Except.error e → rm = Except.error e)
    ∧ (∀ (f2 : DialUpgradeFuture C D TE UE) res i up2,
        DialUpgradeFuture.poll applyOutbound ⟨dialInner, Sum.inl ()⟩ = (f2, res) →
        f2.upgrade = Sum.inr (i, up2) →
        dialInner.delay = 0 ∧ ∃ c, dialInner.result = Except.ok (i, c)) := by
  have hdd := runDial_inl applyOutbound dialInner fuel1 rd hd
  have hll := runListener_inl applyInbound listenInner fuel2 rl hl
  have hmm := runMultiplex_result pid mux fuel3 rm hm
  refine ⟨?_, ?_, ?_, ?_, ?_, ?_, ?_⟩
  · intro e he
    simp only [hdd, he]
  · intro i c hic
    constructor
    · intro d hok
      simp only [hdd, hic, hok]
    · intro e herr
      simp only [hdd, hic, herr]
  · intro e he
    simp only [hll, he]
  · intro i c hic
    constructor
    · intro d hok
      simp only [hll, hic, hok]
    · intro e herr
      simp only [hll, hic, herr]
  · intro m hok
    simp only [hmm, hok]
  · intro e herr
    simp only [hmm, herr]
  · intro f2 res i up2 hpoll hupg
    exact dial_poll_applies_after_success applyOutbound dialInner f2 res i up2 hpoll hupg

/-- Sample outbound upgrade application for evaluating C9. -/
def wApplyOut : Nat → MockFuture (Except Nat Nat) := fun c => ⟨1, Except.ok (c + 1)⟩

/-- Sample inbound upgrade application for evaluating C9. -/
def wApplyIn : Nat → MockFuture (Except Nat Nat) := fun c => ⟨0, Except.error c⟩

/-- Sample inner dial future: succeeds with peer id 7 and I/O resource 5 after
one pending poll. -/
def wDialInner : MockFuture (Except Nat (Nat × Nat)) := ⟨1, Except.ok (7, 5)⟩

/-- Sample inner listener future: fails immediately with transport error 3. -/
def wListenInner : MockFuture (Except Nat (Nat × Nat)) := ⟨0, Except.error 3⟩

/-- Sample multiplexer upgrade: yields muxer 9 after two pending polls. -/
def wMux : MockFuture (Except Nat Nat) := ⟨2, Except.ok 9⟩

/-- Evaluation of C9 on concrete futures: the dial run resolves to
`Ok((7, 6))`, the listener run to a transport error, and the multiplex run to
`Ok((7, 9))`. -/
theorem transport_upgrade_contract_witness :
    (∀ e, wDialInner.result = Except.error e →
        (Except.ok (7, 6) : Except (TransportUpgradeError Nat Nat) (Nat × Nat))
          = Except.error (TransportUpgradeError.transport e))
    ∧ (∀ i c, wDialInner.result = Except.ok (i, c) →
        (∀ d, (wApplyOut c).result = Except.ok d →
            (Except.ok (7, 6) : Except (TransportUpgradeError Nat Nat) (Nat × Nat))
              = Except.ok (i, d))
        ∧ (∀ e, (wApplyOut c).result = Except.error e →
            (Except.ok (7, 6) : Except (TransportUpgradeError Nat Nat) (Nat × Nat))
              = Except.error (TransportUpgradeError.upgrade e)))
    ∧ (∀ e, wListenInner.result = Except.error e →
        (Except.error (TransportUpgradeError.transport 3)
            : Except (TransportUpgradeError Nat Nat) (Nat × Nat))
          = Except.error (TransportUpgradeError.transport e))
    ∧ (∀ i c, wListenInner.result = Except.ok (i, c) →
        (∀ d, (wApplyIn c).result = Except.ok d →
            (Except.error (TransportUpgradeError.transport 3)
              : Except (TransportUpgradeError Nat Nat) (Nat × Nat)) = Except.ok (i, d))
        ∧ (∀ e, (wApplyIn c).result = Except.error e →
            (Except.error (TransportUpgradeError.transport 3)
              : Except (TransportUpgradeError Nat Nat) (Nat × Nat))
              = Except.error (TransportUpgradeError.upgrade e)))
    ∧ (∀ m, wMux.result = Except.ok m →
        (Except.ok (7, 9) : Except Nat (Nat × Nat)) = Except.ok (7, m))
    ∧ (∀ e, wMux.result = Except.error e →
        (Except.ok (7, 9) : Except Nat (Nat × Nat)) = Except.error e)
    ∧ (∀ (f2 : DialUpgradeFuture Nat Nat Nat Nat) res i up2,
        DialUpgradeFuture.poll wApplyOut ⟨wDialInner, Sum.inl ()⟩ = (f2, res) →
        f2.upgrade = Sum.inr (i, up2) →
        wDialInner.delay = 0 ∧ ∃ c, wDialInner.result = Except.ok (i, c)) :=
  transport_upgrade_contract wApplyOut wApplyIn wDialInner wListenInner 7 wMux
    4 1 3 (Except.ok (7, 6)) (Except.error (TransportUpgradeError.transport 3))
    (Except.ok (7, 9)) rfl rfl rfl
